import Mathlib

/-
  Verification development for the OXC concentration prediction pipeline
  (src/CatBoost.py): feature schema, record validation and normalization,
  tree-ensemble prediction, SHAP-style additive attribution, and the
  accuracy metrics. Real-valued quantities are embedded as rationals.
-/

namespace OxcConcentration

/-- A feature value supplied to or produced by the pipeline: numeric
features carry a rational, categorical features carry an integer code. -/
inductive Value where
  | num (q : ℚ)
  | cat (z : ℤ)
deriving DecidableEq, Repr

/-- Modelled from the spec: the ValidationError record with a feature name
and a reason, raised by the Record Validator (the source delegates domain
enforcement to streamlit widgets, which are not part of src). -/
structure ValidationError where
  feature : String
  reason : String
deriving DecidableEq, Repr

/-- One entry of the feature schema: either a numeric feature with min,
max, default, or a categorical feature with an option list and default.
The description string is carried along as in the source dictionary. -/
inductive FeatureSpec where
  | numerical (name : String) (fmin fmax fdefault : ℚ) (description : String)
  | categorical (name : String) (options : List ℤ) (fdefault : ℤ) (description : String)
deriving DecidableEq, Repr

def FeatureSpec.name : FeatureSpec → String
  | .numerical n _ _ _ _ => n
  | .categorical n _ _ _ => n

/-- The feature input ranges, embedded from src/CatBoost.py lines 28-41
in source order.  The float literals of the source (0.0, 18.0, ..., 3.85)
are written as the equal rational numbers. -/
def feature_ranges : List FeatureSpec := [
  .categorical "SEX" [0, 1] 0 "性别 (0 = 女, 1 = 男)",
  .numerical "AGE" 0 18 5 "患者年龄 (岁)",
  .numerical "WT" 0 100 25 "患者体重 (kg)",
  .numerical "Single_Dose" 0 60 15 "单次给药剂量/体重 (mg/kg)",
  .numerical "Daily_Dose" 0 2400 450 "日总剂量 (mg)",
  .numerical "SCR" 0 150 30 "血清肌酐水平 (μmol/L)",
  .numerical "CLCR" 0 200 90 "肌酐清除率 (L/h)",
  .numerical "BUN" 0 50 5 "血尿素氮水平 (mmol/L)",
  .numerical "ALT" 0 150 18 "丙氨酸氨基转移酶水平 (U/L)",
  .numerical "AST" 0 150 18 "天冬氨酸氨基转移酶水平 (U/L)",
  .numerical "CL" 0 100 (385/100) "药物的代谢清除率 (L/h)",
  .numerical "V" 0 1000 10 "药物的表观分布容积 (L)"]

/-- The default value of a schema entry, as a Value (categorical defaults
are already integer codes in the source dictionary). -/
def defaultValue : FeatureSpec → Value
  | .numerical _ _ _ d _ => .num d
  | .categorical _ _ d _ => .cat d

/-- Modelled from the spec: the validation predicate of the Record
Validator (absent from src, where streamlit number_input and selectbox
enforce the domains): a numeric value must satisfy fmin le value le fmax,
a categorical value must be a member of the options; a value of the wrong
kind is rejected.  On success the supplied value is returned unchanged,
never clamped. -/
def validateFeature : FeatureSpec → Value → Except ValidationError Value
  | .numerical n lo hi _ _, .num q =>
      if lo ≤ q ∧ q ≤ hi then .ok (.num q)
      else .error ⟨n, "value outside numeric domain"⟩
  | .numerical n _ _ _ _, .cat _ => .error ⟨n, "wrong kind: expected numeric"⟩
  | .categorical n opts _ _, .cat z =>
      if z ∈ opts then .ok (.cat z)
      else .error ⟨n, "value not a member of options"⟩
  | .categorical n _ _ _, .num _ => .error ⟨n, "wrong kind: expected categorical"⟩

/-- Modelled from the spec: normalization over a list of schema entries,
in schema order; absent features are filled with their default, present
features are validated. -/
def normalizeFrom (raw : String → Option Value) :
    List FeatureSpec → Except ValidationError (List (String × Value))
  | [] => .ok []
  | s :: rest =>
      match (match raw s.name with
             | none => Except.ok (defaultValue s)
             | some v => validateFeature s v) with
      | .error e => .error e
      | .ok v =>
          match normalizeFrom raw rest with
          | .error e => .error e
          | .ok tail => .ok ((s.name, v) :: tail)

/-- Modelled from the spec: the Record Validator operation normalize,
applied to the feature_ranges schema of the source. -/
def normalize (raw : String → Option Value) :
    Except ValidationError (List (String × Value)) :=
  normalizeFrom raw feature_ranges

/-- The empty raw mapping: every feature absent. -/
def emptyRaw : String → Option Value := fun _ => none

/-- A raw mapping supplying exactly one feature. -/
def singleRaw (name : String) (v : Value) : String → Option Value :=
  fun n => if n = name then some v else none

/-- The all-defaults record: every feature paired with its schema default. -/
def defaultRecord : List (String × Value) :=
  feature_ranges.map (fun s => (s.name, defaultValue s))

/-- The canonical record as the model sees it: column i of the one-row
DataFrame, with categorical integer codes cast to the numeric axis. -/
def toRow (rec : List (String × Value)) : Nat → ℚ :=
  fun i =>
    match rec.get? i with
    | some (_, .num q) => q
    | some (_, .cat z) => (z : ℚ)
    | none => 0

/- Accuracy metrics.  The source calls sklearn mean_absolute_error,
mean_squared_error and r2_score (line 151-153); the formulas below are
their standard definitions over rationals. -/

/-- Modelled from the spec: mean absolute error of paired sequences
(sklearn mean_absolute_error is not part of src). -/
def mean_absolute_error (tv pv : List ℚ) : ℚ :=
  (List.zipWith (fun a b => |a - b|) tv pv).sum / tv.length

/-- Modelled from the spec: mean squared error of paired sequences
(sklearn mean_squared_error is not part of src). -/
def mean_squared_error (tv pv : List ℚ) : ℚ :=
  (List.zipWith (fun a b => (a - b) ^ 2) tv pv).sum / tv.length

/-- Arithmetic mean of a list of rationals. -/
def listMean (l : List ℚ) : ℚ := l.sum / l.length

/-- Modelled from the spec: coefficient of determination, one minus the
ratio of residual to total sum of squares (sklearn r2_score is not part
of src). -/
def r2_score (tv pv : List ℚ) : ℚ :=
  1 - (List.zipWith (fun a b => (a - b) ^ 2) tv pv).sum /
      (tv.map (fun a => (a - listMean tv) ^ 2)).sum

/-- The true values of the hard-coded evaluation sample,
src/CatBoost.py line 138 (the source writes them as 1.0, ..., 5.0). -/
def true_values : List ℚ := [1, 2, 3, 4, 5]

/-- The predicted values of the hard-coded evaluation sample,
src/CatBoost.py line 139. -/
def predicted_values : List ℚ := [1.1, 2.1, 2.9, 4.1, 5.1]

/-- Modelled from the spec: the error taxonomy of the Accuracy Reporter. -/
inductive MetricError where
  | shapeMismatch
  | degenerateInput
deriving DecidableEq, Repr

/-- The aggregate accuracy report of the Accuracy Reporter. -/
structure AccuracyReport where
  mae : ℚ
  mse : ℚ
  r2 : ℚ
deriving DecidableEq, Repr

/-- Whether every element of the list equals the first one. -/
def allSame : List ℚ → Bool
  | [] => true
  | a :: l => l.all (fun b => b == a)

/-- Modelled from the spec: the Accuracy Reporter operation report, which
checks the shape precondition and the zero-variance degeneracy explicitly
before computing any metric. -/
def report (tv pv : List ℚ) : Except MetricError AccuracyReport :=
  if tv.length ≠ pv.length ∨ tv.length = 0 then .error .shapeMismatch
  else if allSame tv then .error .degenerateInput
  else .ok ⟨mean_absolute_error tv pv, mean_squared_error tv pv, r2_score tv pv⟩

/- The opaque regressor.  The persisted model (cat_grid_search.pkl,
line 10-14) is a CatBoost tree ensemble; it is modelled as a list of
binary decision trees over the feature columns, each split node carrying
the training cover of its two subtrees. -/

/-- Modelled from the spec: a binary decision tree of the opaque
tree-ensemble regressor (the persisted model is not part of src).  A node
splits on a feature column against a threshold; coverL and coverR are the
training covers of the subtrees, used when a feature is marginalized. -/
inductive CTree where
  | leaf (value : ℚ)
  | node (feature : Nat) (threshold : ℚ) (coverL coverR : ℚ) (left right : CTree)
deriving DecidableEq, Repr

/-- The prediction of one tree on a feature row: walk the split nodes. -/
def treePredict (x : Nat → ℚ) : CTree → ℚ
  | .leaf v => v
  | .node f t _ _ l r => if x f ≤ t then treePredict x l else treePredict x r

/-- The conditional-expectation value of one tree given that only the
features of the coalition S are fixed to the row values: at a split on a
feature in S the row decides the branch, otherwise the branches are
averaged with their training covers.  This is the coalitional game that
tree SHAP attributes. -/
def treeValue (x : Nat → ℚ) (S : Finset Nat) : CTree → ℚ
  | .leaf v => v
  | .node f t cl cr l r =>
      if f ∈ S then (if x f ≤ t then treeValue x S l else treeValue x S r)
      else (cl * treeValue x S l + cr * treeValue x S r) / (cl + cr)

/-- The cover-weighted expected value of one tree (no feature fixed). -/
def treeExpected : CTree → ℚ
  | .leaf v => v
  | .node _ _ cl cr l r => (cl * treeExpected l + cr * treeExpected r) / (cl + cr)

/-- Every split feature of the tree is a column index below n. -/
def CTree.wf (n : Nat) : CTree → Bool
  | .leaf _ => true
  | .node f _ _ _ l r => decide (f < n) && l.wf n && r.wf n

/-- The unwrapped best estimator: a tree ensemble whose prediction is the
sum of its trees. -/
structure Ensemble where
  trees : List CTree
deriving DecidableEq, Repr

/-- The point prediction of the ensemble on a feature row
(best_model.predict, src/CatBoost.py line 70). -/
def ensemblePredict (m : Ensemble) (x : Nat → ℚ) : ℚ :=
  (m.trees.map (treePredict x)).sum

/-- The coalitional game of the ensemble: the sum of the per-tree
conditional-expectation values. -/
def ensembleValue (m : Ensemble) (x : Nat → ℚ) (S : Finset Nat) : ℚ :=
  (m.trees.map (treeValue x S)).sum

/-- The baseline of the explainer (explainer.expected_value,
src/CatBoost.py line 98): the cover-weighted expected output of the
ensemble over its training distribution. -/
def expected_value (m : Ensemble) : ℚ :=
  (m.trees.map treeExpected).sum

/- SHAP values: the Shapley values of the coalitional game above, written
through the permutation formula. -/

/-- The features placed before feature i in the order pi: the longest
prefix of pi not containing i. -/
def precede (pi : List Nat) (i : Nat) : Finset Nat :=
  (pi.takeWhile (fun j => j != i)).toFinset

/-- The marginal contribution of feature i when it joins the features
preceding it in the order pi. -/
def margContrib (v : Finset Nat → ℚ) (pi : List Nat) (i : Nat) : ℚ :=
  v (insert i (precede pi i)) - v (precede pi i)

/-- Modelled from the spec: the Shapley value of feature i in the game v
over n features, averaged over all feature orders (the exact attribution
of shap.TreeExplainer, which is not part of src). -/
def shapley (v : Finset Nat → ℚ) (n i : Nat) : ℚ :=
  ((List.range n).permutations.map (fun pi => margContrib v pi i)).sum /
    (Nat.factorial n)

/-- Modelled from the spec: the per-feature attribution vector of the
record row (explainer.shap_values, src/CatBoost.py line 93). -/
def shap_values (m : Ensemble) (x : Nat → ℚ) (n : Nat) : List ℚ :=
  (List.range n).map (fun i => shapley (ensembleValue m x) n i)

/- The pipeline: load the grid-search object, unwrap its best estimator
once, and run prediction and attribution on the same canonical record. -/

/-- The loaded grid-search object (cat_grid_search.pkl, line 11), of which
only the best estimator is used. -/
structure GridSearch where
  best_estimator : Ensemble

/-- The best estimator unwrapped from the grid-search object
(src/CatBoost.py line 14). -/
def best_model (gs : GridSearch) : Ensemble := gs.best_estimator

/-- The number of feature columns of the schema. -/
def numFeatures : Nat := feature_ranges.length

/-- The single-record pipeline of src/CatBoost.py lines 44-104: normalize
the raw input into the one-row canonical record, then compute the point
prediction, the explainer baseline and the attribution vector, all against
the unwrapped best estimator and that same record. -/
def runPipeline (gs : GridSearch) (raw : String → Option Value) :
    Except ValidationError (ℚ × ℚ × List ℚ) :=
  match normalize raw with
  | .error e => .error e
  | .ok rec =>
      .ok (ensemblePredict (best_model gs) (toRow rec),
           expected_value (best_model gs),
           shap_values (best_model gs) (toRow rec) numFeatures)

/- Small concrete instances used to witness the theorems. -/

/-- A concrete two-feature demonstration tree. -/
def demoTree : CTree :=
  .node 0 (1/2) 1 1 (.leaf 1) (.node 1 (1/4) 1 3 (.leaf 2) (.leaf 6))

/-- A concrete demonstration ensemble of two trees. -/
def demoEnsemble : Ensemble := ⟨[demoTree, .leaf (3/2)]⟩

/-- A concrete demonstration feature row. -/
def demoRow : Nat → ℚ := fun i => if i = 0 then 1 else 0

/-- A concrete grid-search wrapper around the demonstration ensemble. -/
def demoGridSearch : GridSearch := ⟨demoEnsemble⟩

/-- The record produced for the boundary input AGE = 18 with every other
feature defaulted. -/
def ageBoundaryRecord : List (String × Value) := [
  ("SEX", .cat 0), ("AGE", .num 18), ("WT", .num 25),
  ("Single_Dose", .num 15), ("Daily_Dose", .num 450), ("SCR", .num 30),
  ("CLCR", .num 90), ("BUN", .num 5), ("ALT", .num 18),
  ("AST", .num 18), ("CL", .num (385/100)), ("V", .num 10)]

/-- The record produced for the input SEX = 1 with every other feature
defaulted. -/
def sexOneRecord : List (String × Value) := [
  ("SEX", .cat 1), ("AGE", .num 5), ("WT", .num 25),
  ("Single_Dose", .num 15), ("Daily_Dose", .num 450), ("SCR", .num 30),
  ("CLCR", .num 90), ("BUN", .num 5), ("ALT", .num 18),
  ("AST", .num 18), ("CL", .num (385/100)), ("V", .num 10)]

/-- The fixed column order of the schema, as a list of names. -/
def schemaColumns : List String :=
  ["SEX", "AGE", "WT", "Single_Dose", "Daily_Dose", "SCR",
   "CLCR", "BUN", "ALT", "AST", "CL", "V"]

/- Helper lemmas. -/

theorem toFinset_listRange (n : Nat) : (List.range n).toFinset = Finset.range n := by
  ext a
  simp [List.mem_toFinset, List.mem_range, Finset.mem_range]

theorem listSum_eq_finsetSum (f : Nat → ℚ) :
    ∀ l : List Nat, l.Nodup → ∑ i ∈ l.toFinset, f i = (l.map f).sum := by
  intro l
  induction l with
  | nil => simp
  | cons a l ih =>
      intro hnd
      rcases List.nodup_cons.mp hnd with ⟨ha, hl⟩
      rw [List.toFinset_cons, Finset.sum_insert (by simpa [List.mem_toFinset] using ha),
        List.map_cons, List.sum_cons, ih hl]

theorem precede_cons_self (a : Nat) (l : List Nat) : precede (a :: l) a = ∅ := by
  simp [precede, List.takeWhile_cons_of_neg]

theorem precede_cons_ne (a i : Nat) (l : List Nat) (h : i ≠ a) :
    precede (a :: l) i = insert a (precede l i) := by
  have hb : (a != i) = true := by
    simp only [bne_iff_ne, ne_eq]
    exact fun he => h he.symm
  simp [precede, List.takeWhile_cons, hb]

theorem sum_margContrib :
    ∀ l : List Nat, l.Nodup → ∀ v : Finset Nat → ℚ,
      ∑ i ∈ l.toFinset, margContrib v l i = v l.toFinset - v ∅ := by
  intro l
  induction l with
  | nil => intro _ v; simp
  | cons a l ih =>
      intro hnd v
      rcases List.nodup_cons.mp hnd with ⟨ha, hl⟩
      have hmem : a ∉ l.toFinset := by simpa [List.mem_toFinset] using ha
      rw [List.toFinset_cons, Finset.sum_insert hmem]
      have hhead : margContrib v (a :: l) a = v {a} - v ∅ := by
        rw [margContrib, precede_cons_self]
        simp
      have htail : ∑ i ∈ l.toFinset, margContrib v (a :: l) i =
          ∑ i ∈ l.toFinset, margContrib (fun S => v (insert a S)) l i := by
        refine Finset.sum_congr rfl ?_
        intro i hi
        have hia : i ≠ a := by
          intro he; exact hmem (he ▸ hi)
        rw [margContrib, margContrib, precede_cons_ne a i l hia, Finset.Insert.comm]
      rw [hhead, htail, ih hl (fun S => v (insert a S))]
      have h0 : insert a (∅ : Finset Nat) = ({a} : Finset Nat) := by simp
      rw [h0]
      ring

theorem finsetSum_listSum {α β : Type} (l : List α) (s : Finset β) (f : α → β → ℚ) :
    ∑ b ∈ s, (l.map (fun a => f a b)).sum = (l.map (fun a => ∑ b ∈ s, f a b)).sum := by
  induction l with
  | nil => simp
  | cons a l ih => simp [Finset.sum_add_distrib, ih]

theorem listSum_map_const {α : Type} (l : List α) (f : α → ℚ) (c : ℚ)
    (h : ∀ a ∈ l, f a = c) : (l.map f).sum = l.length * c := by
  induction l with
  | nil => simp
  | cons a l ih =>
      rw [List.map_cons, List.sum_cons, h a (by simp), ih (fun b hb => h b (by simp [hb])),
        List.length_cons]
      push_cast
      ring

theorem sum_margContrib_perm (n : Nat) (pi : List Nat)
    (h : pi ∈ (List.range n).permutations) (v : Finset Nat → ℚ) :
    ∑ i ∈ Finset.range n, margContrib v pi i = v (Finset.range n) - v ∅ := by
  have hperm : pi.Perm (List.range n) := List.mem_permutations.mp h
  have hnd : pi.Nodup := hperm.nodup_iff.mpr (List.nodup_range n)
  have hfs : pi.toFinset = Finset.range n := by
    ext a
    simp [List.mem_toFinset, hperm.mem_iff, List.mem_range, Finset.mem_range]
  rw [← hfs]
  exact sum_margContrib pi hnd v

theorem shapley_efficiency (v : Finset Nat → ℚ) (n : Nat) :
    ∑ i ∈ Finset.range n, shapley v n i = v (Finset.range n) - v ∅ := by
  unfold shapley
  rw [← Finset.sum_div]
  rw [finsetSum_listSum ((List.range n).permutations) (Finset.range n)
    (fun pi i => margContrib v pi i)]
  rw [listSum_map_const _ _ (v (Finset.range n) - v ∅)
    (fun pi hpi => sum_margContrib_perm n pi hpi v)]
  rw [List.length_permutations, List.length_range]
  have hne : ((Nat.factorial n : ℚ)) ≠ 0 := by
    exact_mod_cast Nat.factorial_ne_zero n
  field_simp

theorem treeValue_empty (x : Nat → ℚ) (t : CTree) : treeValue x ∅ t = treeExpected t := by
  induction t with
  | leaf v => rfl
  | node f th cl cr l r ihl ihr => simp [treeValue, treeExpected, ihl, ihr]

theorem treeValue_full (x : Nat → ℚ) (n : Nat) :
    ∀ t : CTree, t.wf n = true → treeValue x (Finset.range n) t = treePredict x t := by
  intro t
  induction t with
  | leaf v => intro _; rfl
  | node f th cl cr l r ihl ihr =>
      intro hwf
      rw [CTree.wf] at hwf
      simp only [Bool.and_eq_true, decide_eq_true_eq] at hwf
      rw [treeValue, treePredict, if_pos (Finset.mem_range.mpr hwf.1.1),
        ihl hwf.1.2, ihr hwf.2]

theorem ensembleValue_empty (m : Ensemble) (x : Nat → ℚ) :
    ensembleValue m x ∅ = expected_value m := by
  unfold ensembleValue expected_value
  congr 1
  exact List.map_congr_left (fun t _ => treeValue_empty x t)

theorem ensembleValue_full (m : Ensemble) (x : Nat → ℚ) (n : Nat)
    (h : ∀ t ∈ m.trees, t.wf n = true) :
    ensembleValue m x (Finset.range n) = ensemblePredict m x := by
  unfold ensembleValue ensemblePredict
  congr 1
  exact List.map_congr_left (fun t ht => treeValue_full x n t (h t ht))

theorem validateFeature_ok_eq {s : FeatureSpec} {v w : Value}
    (h : validateFeature s v = .ok w) : w = v := by
  cases s with
  | numerical n lo hi d desc =>
      cases v with
      | num q =>
          rw [validateFeature] at h
          split at h
          · cases h; rfl
          · cases h
      | cat z => cases h
  | categorical n opts d desc =>
      cases v with
      | num q => cases h
      | cat z =>
          rw [validateFeature] at h
          split at h
          · cases h; rfl
          · cases h

theorem normalizeFrom_map_fst (raw : String → Option Value) :
    ∀ (specs : List FeatureSpec) (rec : List (String × Value)),
      normalizeFrom raw specs = .ok rec →
      rec.map Prod.fst = specs.map FeatureSpec.name := by
  intro specs
  induction specs with
  | nil => intro rec h; cases h; rfl
  | cons s0 rest ih =>
      intro rec h
      rw [normalizeFrom] at h
      cases hhead : (match raw s0.name with
                     | none => Except.ok (defaultValue s0)
                     | some v => validateFeature s0 v) with
      | error e => rw [hhead] at h; cases h
      | ok v =>
          rw [hhead] at h
          cases htail : normalizeFrom raw rest with
          | error e => rw [htail] at h; cases h
          | ok tail =>
              rw [htail] at h
              cases h
              simp only [List.map_cons]
              rw [ih tail htail]

theorem normalizeFrom_lookup (raw : String → Option Value) :
    ∀ (specs : List FeatureSpec) (rec : List (String × Value)),
      normalizeFrom raw specs = .ok rec →
      (specs.map FeatureSpec.name).Nodup →
      ∀ s ∈ specs,
        rec.lookup s.name =
          some (match raw s.name with
                | none => defaultValue s
                | some v => v) := by
  intro specs
  induction specs with
  | nil => intro rec _ _ s hs; cases hs
  | cons s0 rest ih =>
      intro rec h hnd s hs
      rw [normalizeFrom] at h
      cases hhead : (match raw s0.name with
                     | none => Except.ok (defaultValue s0)
                     | some v => validateFeature s0 v) with
      | error e => rw [hhead] at h; cases h
      | ok v =>
          rw [hhead] at h
          cases htail : normalizeFrom raw rest with
          | error e => rw [htail] at h; cases h
          | ok tail =>
              rw [htail] at h
              cases h
              rw [List.map_cons] at hnd
              rcases List.nodup_cons.mp hnd with ⟨hname, hndrest⟩
              rcases List.mem_cons.mp hs with hs | hs
              · subst hs
                simp only [List.lookup, beq_self_eq_true]
                revert hhead
                cases hr : raw s.name with
                | none => intro hhead; cases hhead; rfl
                | some w =>
                    intro hhead
                    rw [validateFeature_ok_eq hhead]
              · have hne : s.name ≠ s0.name := by
                  intro he
                  exact hname (he ▸ List.mem_map_of_mem FeatureSpec.name hs)
                have hbeq : (s.name == s0.name) = false := by
                  simpa using hne
                simp only [List.lookup, hbeq]
                exact ih tail htail hndrest s hs

theorem normalizeFrom_validate (raw : String → Option Value) :
    ∀ (specs : List FeatureSpec) (rec : List (String × Value)),
      normalizeFrom raw specs = .ok rec →
      ∀ s ∈ specs, ∀ v, raw s.name = some v → validateFeature s v = .ok v := by
  intro specs
  induction specs with
  | nil => intro rec _ s hs; cases hs
  | cons s0 rest ih =>
      intro rec h s hs v hraw
      rw [normalizeFrom] at h
      cases hhead : (match raw s0.name with
                     | none => Except.ok (defaultValue s0)
                     | some v => validateFeature s0 v) with
      | error e => rw [hhead] at h; cases h
      | ok w =>
          rw [hhead] at h
          cases htail : normalizeFrom raw rest with
          | error e => rw [htail] at h; cases h
          | ok tail =>
              rw [htail] at h
              cases h
              rcases List.mem_cons.mp hs with hs | hs
              · subst hs
                rw [hraw] at hhead
                rw [validateFeature_ok_eq hhead] at hhead
                exact hhead
              · exact ih tail htail s hs v hraw

theorem normalizeFrom_error (raw : String → Option Value) :
    ∀ (specs : List FeatureSpec), (specs.map FeatureSpec.name).Nodup →
      ∀ s ∈ specs, ∀ v err,
        raw s.name = some v →
        (∀ n, n ≠ s.name → raw n = none) →
        validateFeature s v = .error err →
        normalizeFrom raw specs = .error err := by
  intro specs
  induction specs with
  | nil => intro _ s hs; cases hs
  | cons s0 rest ih =>
      intro hnd s hs v err hraw honly hval
      rw [List.map_cons] at hnd
      rcases List.nodup_cons.mp hnd with ⟨hname, hndrest⟩
      rcases List.mem_cons.mp hs with hs | hs
      · subst hs
        simp only [normalizeFrom, hraw, hval]
      · have hne : s0.name ≠ s.name := by
          intro he
          exact hname (he ▸ List.mem_map_of_mem FeatureSpec.name hs)
        have hrec := ih hndrest s hs v err hraw honly hval
        simp only [normalizeFrom, honly s0.name hne, hrec]

theorem shap_additive_general (m : Ensemble) (x : Nat → ℚ) (n : Nat)
    (hwf : ∀ t ∈ m.trees, t.wf n = true) :
    expected_value m + (shap_values m x n).sum = ensemblePredict m x := by
  have hsum : (shap_values m x n).sum =
      ∑ i ∈ Finset.range n, shapley (ensembleValue m x) n i := by
    rw [shap_values, ← listSum_eq_finsetSum _ (List.range n) (List.nodup_range n),
      toFinset_listRange]
  rw [hsum, shapley_efficiency, ensembleValue_empty, ensembleValue_full m x n hwf]
  ring

/-- C1: for every canonical feature record, the attribution satisfies the
additive-decomposition law: the baseline (expected value) plus the sum of
the per-feature contributions equals the point prediction of the record.
In the rational embedding the identity is exact, hence within any
tolerance, in particular 1e-6 relative. -/
theorem shap_additive_decomposition (m : Ensemble) (rec : List (String × Value))
    (hwf : ∀ t ∈ m.trees, t.wf numFeatures = true) :
    expected_value m + (shap_values m (toRow rec) numFeatures).sum =
      ensemblePredict m (toRow rec) :=
  shap_additive_general m (toRow rec) numFeatures hwf

/-- Witness for C1 at a concrete ensemble and the all-defaults record. -/
theorem shap_additive_decomposition_witness :
    (∀ t ∈ demoEnsemble.trees, t.wf numFeatures = true) ∧
    expected_value demoEnsemble +
        (shap_values demoEnsemble (toRow defaultRecord) numFeatures).sum =
      ensemblePredict demoEnsemble (toRow defaultRecord) :=
  ⟨by decide, shap_additive_decomposition demoEnsemble defaultRecord (by decide)⟩

/-- C4 counterexample: on the hard-coded evaluation sample the claimed
metric triple is false, because the coefficient of determination is not
the value 1 - 0.04/10.0 = 0.996 stated by the claim. -/
theorem accuracy_sample_claim_false :
    ¬ (mean_absolute_error true_values predicted_values = 0.10 ∧
       mean_squared_error true_values predicted_values = 0.01 ∧
       r2_score true_values predicted_values = 1 - 0.04 / 10.0) := by
  intro h
  have h3 := h.2.2
  norm_num [r2_score, listMean, true_values, predicted_values] at h3

/-- C4 amended: the evaluation sample yields MAE = 0.10, MSE = 0.01 and
R squared = 1 - 0.05/10 = 0.995 (the residual sum of squares is 0.05, not
0.04, so the spec approximation 0.995 is right and its parenthetical
exact value 0.996 is miscomputed). -/
theorem accuracy_sample_metrics :
    report true_values predicted_values =
      .ok ⟨0.10, 0.01, 1 - 0.05 / 10⟩ := by
  have h1 : mean_absolute_error true_values predicted_values = 0.10 := by
    norm_num [mean_absolute_error, true_values, predicted_values,
      abs_of_nonpos, abs_of_nonneg]
  have h2 : mean_squared_error true_values predicted_values = 0.01 := by
    norm_num [mean_squared_error, true_values, predicted_values]
  have h3 : r2_score true_values predicted_values = 1 - 0.05 / 10 := by
    norm_num [r2_score, listMean, true_values, predicted_values]
  rw [report, if_neg (by decide), if_neg (by decide), h1, h2, h3]

/-- C5: for every evaluation sample of matching shape whose true values
are all identical (zero variance), the Accuracy Reporter fails with the
degenerate-input error through an explicit check; no metric is computed
(and in the exact rational embedding no NaN or infinity exists to be
returned). -/
theorem degenerate_input_rejected (tv pv : List ℚ)
    (hlen : tv.length = pv.length) (hne : 1 ≤ tv.length)
    (hsame : ∀ a ∈ tv, ∀ b ∈ tv, a = b) :
    report tv pv = .error .degenerateInput := by
  cases tv with
  | nil => simp at hne
  | cons a l =>
      have hall : allSame (a :: l) = true := by
        rw [allSame, List.all_eq_true]
        intro b hb
        exact beq_iff_eq.mpr
          (hsame b (List.mem_cons_of_mem a hb) a (List.mem_cons_self a l))
      have h1 : ¬ ((a :: l).length ≠ pv.length ∨ (a :: l).length = 0) := by
        rw [not_or]
        exact ⟨fun hc => hc hlen, by simp⟩
      rw [report, if_neg h1, if_pos hall]

/-- Witness for C5 at true values [2, 2, 2]. -/
theorem degenerate_input_rejected_witness :
    report [2, 2, 2] [1, 2, 3] = .error .degenerateInput :=
  degenerate_input_rejected [2, 2, 2] [1, 2, 3] (by decide) (by decide) (by decide)

/-- C6: for every pair of true and predicted sequences of unequal length
the Accuracy Reporter fails with the shape-mismatch error, and it only
returns metrics when both sequences have the same length n with n at
least 1. -/
theorem shape_mismatch_rejected :
    (∀ tv pv : List ℚ, tv.length ≠ pv.length →
      report tv pv = .error .shapeMismatch) ∧
    (∀ tv pv : List ℚ, ∀ r, report tv pv = .ok r →
      tv.length = pv.length ∧ 1 ≤ tv.length) := by
  constructor
  · intro tv pv h
    rw [report, if_pos (Or.inl h)]
  · intro tv pv r h
    rw [report] at h
    by_cases h1 : tv.length ≠ pv.length ∨ tv.length = 0
    · rw [if_pos h1] at h; cases h
    · push_neg at h1
      exact ⟨h1.1, Nat.one_le_iff_ne_zero.mpr h1.2⟩

/-- Witness for C6 at lengths 3 and 2. -/
theorem shape_mismatch_rejected_witness :
    report [1, 2, 3] [1, 2] = .error .shapeMismatch :=
  shape_mismatch_rejected.1 [1, 2, 3] [1, 2] (by decide)

/-- C7: prediction is deterministic: two invocations of the prediction
on an identical record and model return equal results; the embedded
pipeline is a pure function with no hidden randomness. -/
theorem predict_deterministic (m : Ensemble) (rec1 rec2 : List (String × Value))
    (h : rec1 = rec2) :
    ensemblePredict m (toRow rec1) = ensemblePredict m (toRow rec2) := by
  rw [h]

/-- Witness for C7 at the demonstration ensemble and default record. -/
theorem predict_deterministic_witness :
    ensemblePredict demoEnsemble (toRow defaultRecord) =
      ensemblePredict demoEnsemble (toRow defaultRecord) :=
  predict_deterministic demoEnsemble defaultRecord defaultRecord rfl

/-- C2: for every feature of the schema, a supplied value outside its
declared domain is rejected with a ValidationError naming that feature:
any numeric feature supplied below its min or above its max, and any
categorical feature supplied a code outside its options (so AGE = -1 and
AGE = 19 are rejected, as are WT = 500 or SEX = 2); the boundary value
AGE = 18 succeeds; and a supplied value that validates always passes
through unchanged: it is never silently clamped into range. -/
theorem validation_rejects_out_of_domain :
    (∀ name lo hi d desc,
      FeatureSpec.numerical name lo hi d desc ∈ feature_ranges →
      ∀ q : ℚ, q < lo ∨ hi < q →
        normalize (singleRaw name (Value.num q)) =
          .error ⟨name, "value outside numeric domain"⟩) ∧
    (∀ name opts d desc,
      FeatureSpec.categorical name opts d desc ∈ feature_ranges →
      ∀ z : ℤ, z ∉ opts →
        normalize (singleRaw name (Value.cat z)) =
          .error ⟨name, "value not a member of options"⟩) ∧
    (normalize (singleRaw "AGE" (Value.num 18)) = .ok ageBoundaryRecord ∧
      ageBoundaryRecord.lookup "AGE" = some (Value.num 18)) ∧
    (∀ raw rec, normalize raw = .ok rec →
      ∀ s ∈ feature_ranges, ∀ v, raw s.name = some v →
        rec.lookup s.name = some v) := by
  refine ⟨?_, ?_, ⟨rfl, rfl⟩, ?_⟩
  · intro name lo hi d desc hmem q hq
    have hcond : ¬ (lo ≤ q ∧ q ≤ hi) := by
      rcases hq with h | h
      · exact fun hc => absurd hc.1 (not_le.mpr h)
      · exact fun hc => absurd hc.2 (not_le.mpr h)
    have hval : validateFeature (FeatureSpec.numerical name lo hi d desc)
        (Value.num q) = .error ⟨name, "value outside numeric domain"⟩ := by
      rw [validateFeature, if_neg hcond]
    exact normalizeFrom_error (singleRaw name (Value.num q)) feature_ranges
      (by decide) (FeatureSpec.numerical name lo hi d desc) hmem
      (Value.num q) ⟨name, "value outside numeric domain"⟩
      (by simp only [singleRaw]; exact if_pos rfl)
      (fun n hn => by simp only [singleRaw]; exact if_neg fun he => hn he)
      hval
  · intro name opts d desc hmem z hz
    have hval : validateFeature (FeatureSpec.categorical name opts d desc)
        (Value.cat z) = .error ⟨name, "value not a member of options"⟩ := by
      rw [validateFeature, if_neg hz]
    exact normalizeFrom_error (singleRaw name (Value.cat z)) feature_ranges
      (by decide) (FeatureSpec.categorical name opts d desc) hmem
      (Value.cat z) ⟨name, "value not a member of options"⟩
      (by simp only [singleRaw]; exact if_pos rfl)
      (fun n hn => by simp only [singleRaw]; exact if_neg fun he => hn he)
      hval
  · intro raw rec h s hs v hraw
    have hlk := normalizeFrom_lookup raw feature_ranges rec h (by decide) s hs
    rw [hraw] at hlk
    exact hlk

/-- Witness for C2 at the numeric feature WT supplied 500 (above its max
100) and the categorical feature SEX supplied the code 2 (outside its
options 0 and 1). -/
theorem validation_rejects_out_of_domain_witness :
    (FeatureSpec.numerical "WT" 0 100 25 "患者体重 (kg)" ∈ feature_ranges ∧
     ((500:ℚ) < 0 ∨ (100:ℚ) < 500) ∧
     normalize (singleRaw "WT" (Value.num 500)) =
       .error ⟨"WT", "value outside numeric domain"⟩) ∧
    ((2:ℤ) ∉ ([0, 1] : List ℤ) ∧
     normalize (singleRaw "SEX" (Value.cat 2)) =
       .error ⟨"SEX", "value not a member of options"⟩) :=
  ⟨⟨by decide, Or.inr (by norm_num),
    validation_rejects_out_of_domain.1 "WT" 0 100 25 "患者体重 (kg)"
      (by decide) 500 (Or.inr (by norm_num))⟩,
   ⟨by decide,
    validation_rejects_out_of_domain.2.1 "SEX" [0, 1] 0 "性别 (0 = 女, 1 = 男)"
      (by decide) 2 (by decide)⟩⟩

/-- C3: normalizing the empty raw mapping succeeds and yields the
all-defaults record; more generally every absent feature is filled with
its schema default rather than treated as an error. -/
theorem missing_field_default_substitution :
    normalize emptyRaw = .ok defaultRecord ∧
    (∀ raw rec, normalize raw = .ok rec →
      ∀ s ∈ feature_ranges, raw s.name = none →
        rec.lookup s.name = some (defaultValue s)) := by
  constructor
  · rfl
  · intro raw rec h s hs hnone
    have hlk := normalizeFrom_lookup raw feature_ranges rec h (by decide) s hs
    rw [hnone] at hlk
    exact hlk

/-- Witness for C3: the WT feature of a record normalized from a mapping
not supplying WT holds the default 25. -/
theorem missing_field_default_substitution_witness :
    defaultRecord.lookup "WT" = some (Value.num 25) :=
  missing_field_default_substitution.2 emptyRaw defaultRecord
    missing_field_default_substitution.1
    (FeatureSpec.numerical "WT" 0 100 25 "患者体重 (kg)") (by decide) rfl

/-- C8: in every normalized record the categorical feature SEX holds an
integer code, which is what reaches the model boundary through the row
conversion; in particular a record supplied with SEX = 1 reaches the
model as the integer 1, not a floating-point or string representation. -/
theorem categorical_integer_code :
    (∀ raw rec, normalize raw = .ok rec →
      ∃ z : ℤ, rec.get? 0 = some ("SEX", Value.cat z) ∧
        toRow rec 0 = (z : ℚ)) ∧
    (normalize (singleRaw "SEX" (Value.cat 1)) = .ok sexOneRecord ∧
      sexOneRecord.get? 0 = some ("SEX", Value.cat 1) ∧
      toRow sexOneRecord 0 = ((1 : ℤ) : ℚ)) := by
  refine ⟨?_, rfl, rfl, rfl⟩
  intro raw rec h
  have hfst := normalizeFrom_map_fst raw feature_ranges rec h
  have hlk := normalizeFrom_lookup raw feature_ranges rec h (by decide)
    (FeatureSpec.categorical "SEX" [0, 1] 0 "性别 (0 = 女, 1 = 男)") (by decide)
  simp only [FeatureSpec.name] at hlk
  cases rec with
  | nil => simp [feature_ranges, FeatureSpec.name] at hfst
  | cons hd tl =>
      obtain ⟨nm, w⟩ := hd
      have hnm : nm = "SEX" := by
        simpa [feature_ranges, FeatureSpec.name] using congrArg List.head? hfst
      subst hnm
      have hhd : (("SEX", w) :: tl).lookup "SEX" = some w := by
        simp [List.lookup]
      rw [hhd] at hlk
      have hw := Option.some.inj hlk
      cases hr : raw "SEX" with
      | none =>
          rw [hr] at hw
          simp only [defaultValue] at hw
          subst hw
          exact ⟨0, rfl, rfl⟩
      | some v =>
          rw [hr] at hw
          have hval := normalizeFrom_validate raw feature_ranges (("SEX", w) :: tl) h
            (FeatureSpec.categorical "SEX" [0, 1] 0 "性别 (0 = 女, 1 = 男)") (by decide) v hr
          cases v with
          | num q =>
              rw [validateFeature] at hval
              cases hval
          | cat z =>
              subst hw
              exact ⟨z, rfl, rfl⟩

/-- Witness for C8 at the empty raw mapping: the SEX column of the
all-defaults record reaches the model as an integer code. -/
theorem categorical_integer_code_witness :
    ∃ z : ℤ, defaultRecord.get? 0 = some ("SEX", Value.cat z) ∧
      toRow defaultRecord 0 = (z : ℚ) :=
  categorical_integer_code.1 emptyRaw defaultRecord rfl

/-- C9: every successfully normalized record has its columns in exactly
the fixed schema-declared order SEX, AGE, WT, Single_Dose, Daily_Dose,
SCR, CLCR, BUN, ALT, AST, CL, V, independent of the raw input mapping. -/
theorem column_order_fixed (raw : String → Option Value)
    (rec : List (String × Value)) (h : normalize raw = .ok rec) :
    rec.map Prod.fst = schemaColumns := by
  rw [normalizeFrom_map_fst raw feature_ranges rec h]
  rfl

/-- Witness for C9 at the empty raw mapping. -/
theorem column_order_fixed_witness :
    defaultRecord.map Prod.fst = schemaColumns :=
  column_order_fixed emptyRaw defaultRecord rfl

/-- C10: in every run the prediction and the attribution are computed
against the same single unwrapped best estimator and the same one-row
canonical record: the pipeline output is exactly the triple of
prediction, baseline and attribution of best_model on the normalized
record. -/
theorem same_model_same_record (gs : GridSearch) (raw : String → Option Value)
    (rec : List (String × Value)) (h : normalize raw = .ok rec) :
    runPipeline gs raw =
      .ok (ensemblePredict (best_model gs) (toRow rec),
           expected_value (best_model gs),
           shap_values (best_model gs) (toRow rec) numFeatures) := by
  rw [runPipeline, h]

/-- Witness for C10 at the demonstration grid-search object and the empty
raw mapping. -/
theorem same_model_same_record_witness :
    runPipeline demoGridSearch emptyRaw =
      .ok (ensemblePredict (best_model demoGridSearch) (toRow defaultRecord),
           expected_value (best_model demoGridSearch),
           shap_values (best_model demoGridSearch) (toRow defaultRecord) numFeatures) :=
  same_model_same_record demoGridSearch emptyRaw defaultRecord rfl

end OxcConcentration
